import Mathlib

set_option maxRecDepth 8000

/-!
Shallow embedding of the flood API authorization boundary, taken from
src/server/routes/api/index.ts. The router logic present in that file is
translated directly; collaborators that the router imports from modules not in
the repository slice (authUtil, fileUtil, the shared token schema, the passport
jwt strategy and express-rate-limit) are modelled from the specification, each
marked by a doc comment beginning with the words Modelled from the spec.
-/

namespace Flood

/-! ## JSON values -/

/-- JSON-like values used for token payloads and response bodies. -/
inductive Json where
  | jnull
  | jbool (b : Bool)
  | jnum (n : Int)
  | jstr (s : String)
  | jarr (items : List Json)
  | jobj (fields : List (String × Json))

/-- First-match association lookup, as in a JS object property read. -/
def lookupField {α : Type} : String → List (String × α) → Option α
  | _, [] => none
  | k, (k₀, v) :: rest => if k = k₀ then some v else lookupField k rest

/-- True when a JSON value is an object with string fields code and message. -/
def isErrorShape : Json → Bool
  | Json.jobj fields =>
      (match lookupField "code" fields with
       | some (Json.jstr _) => true
       | _ => false)
      &&
      (match lookupField "message" fields with
       | some (Json.jstr _) => true
       | _ => false)
  | _ => false

/-! ## Signer/Verifier -/

/-- Modelled from the spec: the process-wide immutable signer configuration,
a secret loaded at startup and a fixed time-to-live policy (section 4.1). -/
structure SignerEnv where
  secret : Nat
  ttl : Int

def hashStep (a : Nat) (c : Char) : Nat := (a * 131 + c.toNat) % 1000000007

def hashChars (a : Nat) (cs : List Char) : Nat := cs.foldl hashStep a

/-- Hash of one JSON value; nested arrays and objects never occur in the flat
credential payloads the signer produces, so only their tag is mixed in. -/
def hashJson (a : Nat) : Json → Nat
  | Json.jnull => hashStep a 'z'
  | Json.jbool b => hashStep (hashStep a 'b') (if b then '1' else '0')
  | Json.jnum n => hashChars (hashStep a 'n') (toString n).data
  | Json.jstr s => hashChars (hashStep a 's') s.data
  | Json.jarr _ => hashStep a 'a'
  | Json.jobj _ => hashStep a 'o'

def hashPayload (a : Nat) : List (String × Json) → Nat
  | [] => a
  | (k, v) :: rest => hashPayload (hashJson (hashChars (hashStep a 'k') k.data) v) rest

/-- Modelled from the spec: the signature over a payload and its embedded
expiry, deterministic given the process-wide secret (section 4.1). -/
def computeSig (secret : Nat) (payload : List (String × Json)) (expiresAt : Int) : Nat :=
  hashChars (hashPayload (hashStep (secret % 1000000007) '|') payload) (toString expiresAt).data

/-- A structurally well-formed signed token: a payload object, an attached
signature and an embedded expiry. -/
structure SignedBlob where
  payload : List (String × Json)
  sig : Nat
  expiresAt : Int

/-- A wire token string as received over HTTP: either it parses as a signed
token or it is some other string (garbled covers every malformed value,
including the empty string). -/
inductive Wire where
  | garbled (s : String)
  | blob (b : SignedBlob)

/-- The test the router performs against the empty string. A well-formed
signed token never serializes to the empty string. -/
def wireIsEmptyStr : Wire → Bool
  | Wire.garbled s => decide (s = "")
  | Wire.blob _ => false

/-- Modelled from the spec: verify checks signature integrity and that the
current time is before the embedded expiry; it never throws for malformed
input and returns no payload on any failure (section 4.1). -/
def verifyToken (env : SignerEnv) (now : Int) (w : Wire) : Option (List (String × Json)) :=
  match w with
  | Wire.garbled _ => none
  | Wire.blob b =>
      if b.sig = computeSig env.secret b.payload b.expiresAt ∧ now < b.expiresAt then
        some b.payload
      else none

/-- Modelled from the spec: sign(username, issuedAt) from authUtil, producing
an identity credential whose expiry is derived from the fixed time-to-live
policy (section 4.1); it does not read the current time. -/
def getAuthToken (env : SignerEnv) (username : String) (iat : Int) : Wire :=
  Wire.blob
    ⟨[("username", Json.jstr username), ("iat", Json.jnum iat)],
     computeSig env.secret [("username", Json.jstr username), ("iat", Json.jnum iat)] (iat + env.ttl),
     iat + env.ttl⟩

/-- Username field of a signed token, when present as a string. -/
def wireUsername : Wire → Option String
  | Wire.garbled _ => none
  | Wire.blob b =>
      match lookupField "username" b.payload with
      | some (Json.jstr u) => some u
      | _ => none

/-- Issued-at field of a signed token, when present as a number. -/
def wireIat : Wire → Option Int
  | Wire.garbled _ => none
  | Wire.blob b =>
      match lookupField "iat" b.payload with
      | some (Json.jnum n) => some n
      | _ => none

/-- Embedded expiry of a signed token. -/
def wireExpiresAt : Wire → Option Int
  | Wire.garbled _ => none
  | Wire.blob b => some b.expiresAt

/-! ## Content token schema -/

/-- Parsed content token payload, as destructured by the router. -/
structure ContentTokenPayload where
  username : String
  hash : String
  indices : String
  iat : Int

/-- Modelled from the spec: contentTokenSchema.safeParse requires string
fields username, hash, indices and a numeric issuedAt; a payload missing or
mistyping any field fails (section 4.2 step 3). Extra fields are ignored. -/
def contentTokenSafeParse (payload : List (String × Json)) : Option ContentTokenPayload :=
  match lookupField "username" payload, lookupField "hash" payload,
        lookupField "indices" payload, lookupField "iat" payload with
  | some (Json.jstr u), some (Json.jstr h), some (Json.jstr i), some (Json.jnum t) =>
      some ⟨u, h, i, t⟩
  | _, _, _, _ => none

/-! ## Requests and the content-route middleware -/

/-- An express query parameter value: absent, a single string, or an array. -/
inductive QueryVal where
  | qNone
  | qStr (w : Wire)
  | qArr (l : List Wire)

/-- A request to one of the two content routes
(/torrents/:hash/contents/:indices/data and .../subtitles). -/
structure ContentRequest where
  hash : String
  indices : String
  queryToken : QueryVal
  cookies : List (String × Wire)

/-- From src/server/routes/api/index.ts lines 31-59. The returned Bool is
instrumentation recording whether the cookie-overwrite statement on line 51
executed; the middleware itself always falls through to the next handler.
The source re-checks typeof of username, hash and indices after schema
parsing; after contentTokenSafeParse these are strings by construction, so
those tautological guards have no residue in the embedding. -/
def authenticateContentRequest (env : SignerEnv) (now : Int) (req : ContentRequest) :
    ContentRequest × Bool :=
  match req.queryToken with
  | QueryVal.qStr token =>
      if wireIsEmptyStr token then (req, false)
      else
        match verifyToken env now token with
        | none => (req, false)
        | some payload =>
            match contentTokenSafeParse payload with
            | none => (req, false)
            | some data =>
                if req.hash = data.hash ∧ req.indices = data.indices then
                  ({req with cookies := [("jwt", getAuthToken env data.username data.iat)]}, true)
                else (req, false)
  | _ => (req, false)

/-- Modelled from the spec: the mandatory session verification step of
section 4.4 - the passport jwt strategy reads the session credential from the
jwt cookie and verifies it with the Signer/Verifier; absence or verification
failure yields no identity and therefore rejection. -/
def sessionAuthenticate (env : SignerEnv) (now : Int) (cookies : List (String × Wire)) :
    Option String :=
  match lookupField "jwt" cookies with
  | none => none
  | some w =>
      match verifyToken env now w with
      | none => none
      | some payload =>
          match lookupField "username" payload with
          | some (Json.jstr u) => some u
          | _ => none

/-- Outcome of routing a request through the authorization boundary. -/
inductive Outcome where
  | ok (username : String)
  | reject (status : Nat)
deriving DecidableEq

/-- Instrumentation: which boundary stages a request passed through. -/
inductive Step where
  | rateLimited
  | capabilityAttempted
  | sessionChecked
deriving DecidableEq

/-- From src/server/routes/api/index.ts line 92: every route registered after
the content routes requires passport session authentication. -/
def handleProtectedRoute (env : SignerEnv) (now : Int) (cookies : List (String × Wire)) :
    Outcome × List Step :=
  match sessionAuthenticate env now cookies with
  | some u => (Outcome.ok u, [Step.sessionChecked])
  | none => (Outcome.reject 401, [Step.sessionChecked])

/-! ## Rate limiter -/

/-- Window length configured on the content routes (5 * 60 * 1000 ms). -/
def windowMs : Int := 5 * 60 * 1000

/-- Request budget configured on the content routes. -/
def maxRequests : Nat := 100

/-- Rate-limit counter for one client key. -/
structure RateState where
  windowStart : Int
  count : Nat

/-- Modelled from the spec: fixed-window limiter as configured in
src/server/routes/api/index.ts lines 69-72 and 84-87 - the counter is created
on the first request, reset when the window elapses, incremented on every
request, and the request is allowed while the count stays within the budget. -/
def rateLimitStep (now : Int) (st : Option RateState) : RateState × Bool :=
  let base : RateState :=
    match st with
    | none => ⟨now, 0⟩
    | some s => if s.windowStart + windowMs ≤ now then ⟨now, 0⟩ else s
  let s : RateState := ⟨base.windowStart, base.count + 1⟩
  (s, decide (s.count ≤ maxRequests))

/-- From src/server/routes/api/index.ts lines 67-92: a content route request
passes the rate limiter, then authenticateContentRequest (which always calls
next), then the mandatory passport session verification installed on line 92,
before any business handler runs. -/
def handleContentRoute (env : SignerEnv) (now : Int) (st : Option RateState)
    (req : ContentRequest) : (Outcome × List Step) × RateState :=
  let rl := rateLimitStep now st
  if rl.2 then
    let ar := authenticateContentRequest env now req
    match sessionAuthenticate env now ar.1.cookies with
    | some u =>
        ((Outcome.ok u, [Step.rateLimited, Step.capabilityAttempted, Step.sessionChecked]), rl.1)
    | none =>
        ((Outcome.reject 401, [Step.rateLimited, Step.capabilityAttempted, Step.sessionChecked]), rl.1)
  else ((Outcome.reject 429, [Step.rateLimited]), rl.1)

/-- Sequentially process timestamped content-route requests sharing one
client key, threading the rate-limit counter. -/
def runSeq (env : SignerEnv) : Option RateState → List (Int × ContentRequest) →
    List (Outcome × List Step)
  | _, [] => []
  | st, (t, req) :: rest =>
      let r := handleContentRoute env t st req
      r.1 :: runSeq env (some r.2) rest

/-! ## PathGuard -/

/-- Replace every backslash by a forward slash. -/
def normSeps (cs : List Char) : List Char :=
  cs.map fun c => if c = '\\' then '/' else c

/-- Split a character list on a separator; always returns at least one group
and the separator occurs in no group. -/
def splitChars (sep : Char) : List Char → List (List Char)
  | [] => [[]]
  | c :: cs =>
      if c = sep then [] :: splitChars sep cs
      else
        match splitChars sep cs with
        | [] => [[c]]
        | g :: gs => (c :: g) :: gs

/-- Join groups with a separator; left inverse of splitChars on clean groups. -/
def joinChars (sep : Char) : List (List Char) → List Char
  | [] => []
  | [g] => g
  | g :: gs => g ++ sep :: joinChars sep gs

/-- Resolve path segments against an accumulator: empty and dot segments are
dropped, a dot-dot segment pops the last resolved segment, everything else is
appended. -/
def resolveSegs : List (List Char) → List (List Char) → List (List Char)
  | acc, [] => acc
  | acc, s :: rest =>
      if s = [] ∨ s = ['.'] then resolveSegs acc rest
      else if s = ['.', '.'] then resolveSegs acc.dropLast rest
      else resolveSegs (acc ++ [s]) rest

def sanitizeChars (cs : List Char) : List Char :=
  '/' :: joinChars '/' (resolveSegs [] (splitChars '/' (normSeps cs)))

/-- Modelled from the spec: sanitize resolves relative segments and platform
path-separator variants into a single absolute, normalized form
(section 4.3). -/
def sanitizePath (s : String) : String :=
  String.mk (sanitizeChars s.data)

/-- A resolved path segment: nonempty, not a dot or dot-dot, and free of
either separator character. -/
def CleanSeg (s : List Char) : Prop :=
  s ≠ [] ∧ s ≠ ['.'] ∧ s ≠ ['.', '.'] ∧ '/' ∉ s ∧ '\\' ∉ s

/-- Character-list test that the first list begins with the second. -/
def charsStartWith : List Char → List Char → Bool
  | _, [] => true
  | [], _ :: _ => false
  | c :: cs, d :: ds => decide (c = d) && charsStartWith cs ds

/-- Modelled from the spec: isAllowed is true iff the resolved path equals or
is a descendant of at least one configured allow-list root, compared on the
normalized absolute form (section 4.3). -/
def isAllowedPath (roots : List String) (resolvedPath : String) : Bool :=
  roots.any fun root =>
    decide (resolvedPath = sanitizePath root) ||
      charsStartWith resolvedPath.data (sanitizePath root ++ "/").data

/-- From src/server/routes/api/index.ts line 149: the display heuristic regex
matches iff some slash (or backslash) in the path is immediately followed by a
non-whitespace character. -/
def hasParentHeuristic : List Char → Bool
  | [] => false
  | [_] => false
  | a :: b :: rest =>
      ((decide (a = '/') || decide (a = '\\')) && decide (¬ b.isWhitespace))
        || hasParentHeuristic (b :: rest)

/-! ## Directory-list route -/

/-- Error value shape produced by the fileUtil helpers. -/
structure ApiError where
  code : String
  message : String

/-- Modelled from the spec: the fileUtil NotFound error value (section 8,
scenario 4 fixes the code string). -/
def fileNotFoundError : ApiError := ⟨"FileNotFoundError", "File not found."⟩

/-- Modelled from the spec: the fileUtil AccessDenied error value (section 8,
scenario 3 fixes the code string). -/
def accessDeniedError : ApiError := ⟨"AccessDeniedError", "Access denied."⟩

/-- The router destructures code and message from the error value and sends
exactly those two fields as the JSON body. -/
def errorBodyJson (e : ApiError) : Json :=
  Json.jobj [("code", Json.jstr e.code), ("message", Json.jstr e.message)]

/-- An HTTP response: status plus JSON body. -/
structure ApiResponse where
  status : Nat
  body : Json

/-- The filesystem operations the directory-list handler performs. -/
structure Fs where
  readdir : String → List String
  entryExists : String → Bool
  entryIsDir : String → Bool

/-- The path query parameter: absent, a string, or an array. -/
inductive PathParam where
  | absent
  | pstr (s : String)
  | parr (l : List String)

/-- The guard on src line 124: typeof inputPath is not string, or falsy. -/
def pathParamMissing : PathParam → Bool
  | PathParam.pstr s => decide (s = "")
  | _ => true

def pathJoin (a b : String) : String := a ++ "/" ++ b

/-- From src lines 138-147: classify each child as directory or file via
stat; the third component records every filesystem path touched. -/
def listEntries (fs : Fs) (resolvedPath : String) :
    List String → List String × List String × List String
  | [] => ([], [], [])
  | item :: rest =>
      let joined := pathJoin resolvedPath item
      let r := listEntries fs resolvedPath rest
      if fs.entryExists joined then
        if fs.entryIsDir joined then (item :: r.1, r.2.1, joined :: r.2.2)
        else (r.1, item :: r.2.1, joined :: r.2.2)
      else (r.1, r.2.1, joined :: r.2.2)

/-- From src/server/routes/api/index.ts lines 119-158. The second component
of the result is the list of filesystem paths accessed while answering. -/
def directoryListHandler (roots : List String) (fs : Fs) (ip : PathParam) :
    ApiResponse × List String :=
  match ip with
  | PathParam.pstr inputPath =>
      if inputPath = "" then (⟨404, errorBodyJson fileNotFoundError⟩, [])
      else
        let resolvedPath := sanitizePath inputPath
        if isAllowedPath roots resolvedPath then
          let r := listEntries fs resolvedPath (fs.readdir resolvedPath)
          (⟨200, Json.jobj
              [("directories", Json.jarr (r.1.map Json.jstr)),
               ("files", Json.jarr (r.2.1.map Json.jstr)),
               ("hasParent", Json.jbool (hasParentHeuristic resolvedPath.data)),
               ("path", Json.jstr resolvedPath),
               ("separator", Json.jstr "/")]⟩,
           resolvedPath :: r.2.2)
        else (⟨403, errorBodyJson accessDeniedError⟩, [])
  | _ => (⟨404, errorBodyJson fileNotFoundError⟩, [])

/-! ## History, notifications and settings routes -/

/-- From src lines 170-179: on service rejection the raw error value is sent
as the 500 body unchanged. -/
def historyHandler (result : Except Json Json) : ApiResponse :=
  match result with
  | Except.ok snapshot => ⟨200, snapshot⟩
  | Except.error err => ⟨500, err⟩

/-- From src lines 190-199: the 500 body carries only the message field. -/
def notificationsGetHandler (result : Except String Json) : ApiResponse :=
  match result with
  | Except.ok notifications => ⟨200, notifications⟩
  | Except.error msg => ⟨500, Json.jobj [("message", Json.jstr msg)]⟩

/-- From src lines 209-218: the 500 body carries only the message field. -/
def notificationsDeleteHandler (result : Except String Unit) : ApiResponse :=
  match result with
  | Except.ok _ => ⟨200, Json.jnull⟩
  | Except.error msg => ⟨500, Json.jobj [("message", Json.jstr msg)]⟩

/-! ## Concrete fixtures used by the witnesses -/

def envW : SignerEnv := ⟨7, 3600⟩

def payloadW : List (String × Json) :=
  [("username", Json.jstr "bob"), ("hash", Json.jstr "abc"),
   ("indices", Json.jstr "0-1"), ("iat", Json.jnum 1000)]

def blobW : SignedBlob := ⟨payloadW, computeSig 7 payloadW 4600, 4600⟩

def reqGrantW : ContentRequest := ⟨"abc", "0-1", QueryVal.qStr (Wire.blob blobW), []⟩

def reqPlainW : ContentRequest := ⟨"abc", "0-1", QueryVal.qNone, []⟩

def fsW : Fs := ⟨fun _ => [], fun _ => false, fun _ => false⟩

def seqW : List (Int × ContentRequest) := List.replicate 100 ((0 : Int), reqPlainW)

/-! ## Path lemmas -/

theorem mem_of_mem_dropLast {α : Type} : ∀ (l : List α), ∀ x ∈ l.dropLast, x ∈ l := by
  intro l
  induction l with
  | nil => intro x hx; simp at hx
  | cons a rest ih =>
    intro x hx
    cases rest with
    | nil => simp at hx
    | cons b rest₁ =>
      rw [List.dropLast_cons₂] at hx
      rcases List.mem_cons.mp hx with h | h
      · exact h ▸ List.mem_cons_self a _
      · exact List.mem_cons_of_mem a (ih x h)

theorem splitChars_ne_nil (sep : Char) : ∀ (cs : List Char), splitChars sep cs ≠ [] := by
  intro cs
  induction cs with
  | nil => simp [splitChars]
  | cons c cs ih =>
    simp only [splitChars]
    split
    · simp
    · cases h : splitChars sep cs with
      | nil => simp
      | cons g gs => simp

theorem mem_splitChars_not_sep (sep : Char) :
    ∀ (cs : List Char), ∀ g ∈ splitChars sep cs, sep ∉ g := by
  intro cs
  induction cs with
  | nil =>
    intro g hg
    simp [splitChars] at hg
    simp [hg]
  | cons c cs ih =>
    intro g hg
    simp only [splitChars] at hg
    by_cases hc : c = sep
    · rw [if_pos hc] at hg
      rcases List.mem_cons.mp hg with h | h
      · simp [h]
      · exact ih g h
    · rw [if_neg hc] at hg
      cases hsp : splitChars sep cs with
      | nil => exact absurd hsp (splitChars_ne_nil sep cs)
      | cons g₀ gs =>
        rw [hsp] at hg
        rcases List.mem_cons.mp hg with h | h
        · subst h
          intro hmem
          rcases List.mem_cons.mp hmem with h₁ | h₁
          · exact hc h₁.symm
          · exact ih g₀ (hsp ▸ List.mem_cons_self g₀ gs) h₁
        · exact ih g (hsp ▸ List.mem_cons_of_mem g₀ h)

theorem mem_splitChars_subset (sep : Char) :
    ∀ (cs : List Char), ∀ g ∈ splitChars sep cs, ∀ c ∈ g, c ∈ cs := by
  intro cs
  induction cs with
  | nil =>
    intro g hg
    simp [splitChars] at hg
    simp [hg]
  | cons c cs ih =>
    intro g hg d hd
    simp only [splitChars] at hg
    by_cases hc : c = sep
    · rw [if_pos hc] at hg
      rcases List.mem_cons.mp hg with h | h
      · subst h; simp at hd
      · exact List.mem_cons_of_mem c (ih g h d hd)
    · rw [if_neg hc] at hg
      cases hsp : splitChars sep cs with
      | nil => exact absurd hsp (splitChars_ne_nil sep cs)
      | cons g₀ gs =>
        rw [hsp] at hg
        rcases List.mem_cons.mp hg with h | h
        · subst h
          rcases List.mem_cons.mp hd with h₁ | h₁
          · exact h₁ ▸ List.mem_cons_self c cs
          · exact List.mem_cons_of_mem c (ih g₀ (hsp ▸ List.mem_cons_self g₀ gs) d h₁)
        · exact List.mem_cons_of_mem c (ih g (hsp ▸ List.mem_cons_of_mem g₀ h) d hd)

theorem splitChars_no_sep (sep : Char) :
    ∀ (g : List Char), sep ∉ g → splitChars sep g = [g] := by
  intro g
  induction g with
  | nil => intro _; rfl
  | cons c cs ih =>
    intro h
    have hc : ¬ c = sep := fun e => h (e ▸ List.mem_cons_self c cs)
    simp only [splitChars]
    rw [if_neg hc, ih fun hm => h (List.mem_cons_of_mem c hm)]

theorem splitChars_append_sep (sep : Char) :
    ∀ (g rest : List Char), sep ∉ g →
      splitChars sep (g ++ sep :: rest) = g :: splitChars sep rest := by
  intro g
  induction g with
  | nil => intro rest _; simp [splitChars]
  | cons c cs ih =>
    intro rest h
    have hc : ¬ c = sep := fun e => h (e ▸ List.mem_cons_self c cs)
    simp only [List.cons_append, splitChars]
    rw [if_neg hc]
    simp only [List.append_eq]
    rw [ih rest fun hm => h (List.mem_cons_of_mem c hm)]

theorem splitChars_joinChars (sep : Char) :
    ∀ (gs : List (List Char)), gs ≠ [] → (∀ g ∈ gs, sep ∉ g) →
      splitChars sep (joinChars sep gs) = gs := by
  intro gs
  induction gs with
  | nil => intro h; exact absurd rfl h
  | cons g gs ih =>
    intro _ hmem
    cases gs with
    | nil =>
      simp only [joinChars]
      exact splitChars_no_sep sep g (hmem g (List.mem_cons_self g []))
    | cons g₁ gs₁ =>
      simp only [joinChars]
      rw [splitChars_append_sep sep g _ (hmem g (List.mem_cons_self g _)),
        ih (by simp) fun x hx => hmem x (List.mem_cons_of_mem g hx)]

theorem mem_joinChars (sep : Char) :
    ∀ (gs : List (List Char)) (c : Char),
      c ∈ joinChars sep gs → c = sep ∨ ∃ g ∈ gs, c ∈ g := by
  intro gs
  induction gs with
  | nil => intro c hc; simp [joinChars] at hc
  | cons g gs ih =>
    intro c hc
    cases gs with
    | nil =>
      right
      exact ⟨g, List.mem_cons_self g [], by simpa [joinChars] using hc⟩
    | cons g₁ gs₁ =>
      simp only [joinChars] at hc
      rcases List.mem_append.mp hc with h | h
      · right; exact ⟨g, List.mem_cons_self g _, h⟩
      · rcases List.mem_cons.mp h with h | h
        · left; exact h
        · rcases ih c h with h | ⟨g₂, hg₂, hc₂⟩
          · left; exact h
          · right; exact ⟨g₂, List.mem_cons_of_mem g hg₂, hc₂⟩

theorem resolveSegs_clean_append :
    ∀ (l acc : List (List Char)),
      (∀ s ∈ l, s ≠ [] ∧ s ≠ ['.'] ∧ s ≠ ['.', '.']) →
      resolveSegs acc l = acc ++ l := by
  intro l
  induction l with
  | nil => intro acc _; simp [resolveSegs]
  | cons s rest ih =>
    intro acc h
    have hs := h s (List.mem_cons_self s rest)
    have h₁ : ¬ (s = [] ∨ s = ['.']) := by
      rintro (e | e)
      · exact hs.1 e
      · exact hs.2.1 e
    simp only [resolveSegs]
    rw [if_neg h₁, if_neg hs.2.2, ih (acc ++ [s]) fun x hx => h x (List.mem_cons_of_mem s hx)]
    simp

theorem resolveSegs_clean :
    ∀ (l acc : List (List Char)),
      (∀ s ∈ acc, CleanSeg s) →
      (∀ s ∈ l, '/' ∉ s ∧ '\\' ∉ s) →
      ∀ s ∈ resolveSegs acc l, CleanSeg s := by
  intro l
  induction l with
  | nil =>
    intro acc hacc _ s hs
    simp only [resolveSegs] at hs
    exact hacc s hs
  | cons t rest ih =>
    intro acc hacc hl
    have htail : ∀ s ∈ rest, '/' ∉ s ∧ '\\' ∉ s :=
      fun s hs => hl s (List.mem_cons_of_mem t hs)
    by_cases h₁ : t = [] ∨ t = ['.']
    · simp only [resolveSegs]
      rw [if_pos h₁]
      exact ih acc hacc htail
    · by_cases h₂ : t = ['.', '.']
      · simp only [resolveSegs]
        rw [if_neg h₁, if_pos h₂]
        exact ih acc.dropLast (fun s hs => hacc s (mem_of_mem_dropLast acc s hs)) htail
      · simp only [resolveSegs]
        rw [if_neg h₁, if_neg h₂]
        apply ih (acc ++ [t])
        · intro s hs
          rcases List.mem_append.mp hs with h | h
          · exact hacc s h
          · have hse : s = t := by simpa using h
            subst hse
            have hne : s ≠ [] ∧ s ≠ ['.'] := by
              constructor
              · exact fun e => h₁ (Or.inl e)
              · exact fun e => h₁ (Or.inr e)
            exact ⟨hne.1, hne.2, h₂, (hl s (List.mem_cons_self s rest)).1,
              (hl s (List.mem_cons_self s rest)).2⟩
        · exact htail

theorem mem_normSeps_ne_backslash :
    ∀ (cs : List Char), ∀ c ∈ normSeps cs, c ≠ '\\' := by
  intro cs c hc
  simp only [normSeps, List.mem_map] at hc
  obtain ⟨a, _, ha⟩ := hc
  by_cases h : a = '\\'
  · rw [if_pos h] at ha
    rw [← ha]
    decide
  · rw [if_neg h] at ha
    rw [← ha]
    exact h

theorem normSeps_id : ∀ (cs : List Char), (∀ c ∈ cs, c ≠ '\\') → normSeps cs = cs := by
  intro cs
  induction cs with
  | nil => intro _; rfl
  | cons c cs ih =>
    intro h
    simp only [normSeps, List.map_cons]
    rw [if_neg (h c (List.mem_cons_self c cs))]
    have := ih fun d hd => h d (List.mem_cons_of_mem c hd)
    simp only [normSeps] at this
    rw [this]

theorem sanitize_segments_clean (cs : List Char) :
    ∀ s ∈ resolveSegs [] (splitChars '/' (normSeps cs)), CleanSeg s := by
  apply resolveSegs_clean
  · intro s hs; simp at hs
  · intro s hs
    constructor
    · exact mem_splitChars_not_sep '/' (normSeps cs) s hs
    · intro hmem
      exact mem_normSeps_ne_backslash cs '\\'
        (mem_splitChars_subset '/' (normSeps cs) s hs '\\' hmem) rfl

theorem sanitizeChars_render (l : List (List Char)) (hclean : ∀ s ∈ l, CleanSeg s) :
    sanitizeChars ('/' :: joinChars '/' l) = '/' :: joinChars '/' l := by
  have hnb : ∀ c ∈ ('/' :: joinChars '/' l), c ≠ '\\' := by
    intro c hc
    rcases List.mem_cons.mp hc with h | h
    · subst h; decide
    · rcases mem_joinChars '/' l c h with h | ⟨g, hg, hcg⟩
      · subst h; decide
      · exact fun e => (hclean g hg).2.2.2.2 (e ▸ hcg)
  unfold sanitizeChars
  rw [normSeps_id _ hnb]
  cases l with
  | nil => decide
  | cons g gs =>
    have hsplit : splitChars '/' ('/' :: joinChars '/' (g :: gs)) =
        [] :: splitChars '/' (joinChars '/' (g :: gs)) := by
      simp [splitChars]
    rw [hsplit, splitChars_joinChars '/' (g :: gs) (by simp)
      fun x hx => (hclean x hx).2.2.2.1]
    have hstep : resolveSegs ([] : List (List Char)) ([] :: g :: gs) =
        resolveSegs [] (g :: gs) := by
      simp [resolveSegs]
    rw [hstep, resolveSegs_clean_append (g :: gs) []
      fun s hs => ⟨(hclean s hs).1, (hclean s hs).2.1, (hclean s hs).2.2.1⟩]
    simp

theorem sanitizeChars_idem (cs : List Char) :
    sanitizeChars (sanitizeChars cs) = sanitizeChars cs := by
  exact sanitizeChars_render (resolveSegs [] (splitChars '/' (normSeps cs)))
    (sanitize_segments_clean cs)

theorem backslash_not_mem_sanitizeChars (cs : List Char) : '\\' ∉ sanitizeChars cs := by
  intro h
  unfold sanitizeChars at h
  rcases List.mem_cons.mp h with h | h
  · exact absurd h (by decide)
  · rcases mem_joinChars '/' _ '\\' h with h | ⟨g, hg, hcg⟩
    · exact absurd h (by decide)
    · exact (sanitize_segments_clean cs g hg).2.2.2.2 hcg

theorem sanitize_split_no_dots (cs : List Char) :
    ∀ seg ∈ splitChars '/' (sanitizeChars cs), seg ≠ ['.'] ∧ seg ≠ ['.', '.'] := by
  intro seg hseg
  unfold sanitizeChars at hseg
  have hclean := sanitize_segments_clean cs
  cases hl : resolveSegs [] (splitChars '/' (normSeps cs)) with
  | nil =>
    rw [hl] at hseg
    have : seg ∈ ([[], []] : List (List Char)) := by
      simpa [joinChars, splitChars] using hseg
    rcases List.mem_cons.mp this with h | h
    · subst h; exact ⟨by simp, by simp⟩
    · have : seg = [] := by simpa using h
      subst this; exact ⟨by simp, by simp⟩
  | cons g gs =>
    rw [hl] at hseg
    have hnosep : ∀ x ∈ g :: gs, '/' ∉ x :=
      fun x hx => (hclean x (hl ▸ hx)).2.2.2.1
    have hsplit : splitChars '/' ('/' :: joinChars '/' (g :: gs)) =
        [] :: splitChars '/' (joinChars '/' (g :: gs)) := by
      simp [splitChars]
    rw [hsplit, splitChars_joinChars '/' (g :: gs) (by simp) hnosep] at hseg
    rcases List.mem_cons.mp hseg with h | h
    · subst h; exact ⟨by simp, by simp⟩
    · exact ⟨(hclean seg (hl ▸ h)).2.1, (hclean seg (hl ▸ h)).2.2.1⟩

/-! ## Capability middleware lemmas -/

theorem authCR_cases (env : SignerEnv) (now : Int) (req : ContentRequest) :
    ((authenticateContentRequest env now req).2 = false ∧
      (authenticateContentRequest env now req).1 = req) ∨
    ((authenticateContentRequest env now req).2 = true ∧
      ∃ b p, req.queryToken = QueryVal.qStr (Wire.blob b) ∧
        b.sig = computeSig env.secret b.payload b.expiresAt ∧
        now < b.expiresAt ∧
        contentTokenSafeParse b.payload = some p ∧
        req.hash = p.hash ∧ req.indices = p.indices ∧
        (authenticateContentRequest env now req).1 =
          { req with cookies := [("jwt", getAuthToken env p.username p.iat)] }) := by
  obtain ⟨rh, ri, qt, ck⟩ := req
  cases qt with
  | qNone => exact Or.inl ⟨rfl, rfl⟩
  | qArr l => exact Or.inl ⟨rfl, rfl⟩
  | qStr w =>
    cases w with
    | garbled s =>
      left
      by_cases hs : s = ""
      · constructor <;> simp [authenticateContentRequest, wireIsEmptyStr, hs]
      · constructor <;> simp [authenticateContentRequest, wireIsEmptyStr, hs, verifyToken]
    | blob b =>
      by_cases hv : b.sig = computeSig env.secret b.payload b.expiresAt ∧ now < b.expiresAt
      · cases hp : contentTokenSafeParse b.payload with
        | none =>
          left
          constructor <;>
            simp [authenticateContentRequest, wireIsEmptyStr, verifyToken, if_pos hv, hp]
        | some data =>
          by_cases hm : rh = data.hash ∧ ri = data.indices
          · right
            constructor
            · simp [authenticateContentRequest, wireIsEmptyStr, verifyToken, if_pos hv, hp,
                if_pos hm]
            · refine ⟨b, data, rfl, hv.1, hv.2, hp, hm.1, hm.2, ?_⟩
              simp [authenticateContentRequest, wireIsEmptyStr, verifyToken, if_pos hv, hp,
                if_pos hm]
          · left
            constructor <;>
              simp [authenticateContentRequest, wireIsEmptyStr, verifyToken, if_pos hv, hp,
                if_neg hm]
      · left
        constructor <;>
          simp [authenticateContentRequest, wireIsEmptyStr, verifyToken, if_neg hv]

theorem authCR_grant_complete (env : SignerEnv) (now : Int) (req : ContentRequest) :
    ∀ b p, req.queryToken = QueryVal.qStr (Wire.blob b) →
      b.sig = computeSig env.secret b.payload b.expiresAt →
      now < b.expiresAt →
      contentTokenSafeParse b.payload = some p →
      req.hash = p.hash → req.indices = p.indices →
      (authenticateContentRequest env now req).2 = true := by
  obtain ⟨rh, ri, qt, ck⟩ := req
  intro b p hq hsig hlt hparse hh hi
  subst hq
  simp only at hh hi
  simp [authenticateContentRequest, wireIsEmptyStr, verifyToken, if_pos (And.intro hsig hlt),
    hparse, if_pos (And.intro hh hi)]

/-! ## Claim theorems -/

/-- C1: on a content route with a query token, a capability grant is issued
iff the token is a nonempty string that parses as a signed token whose
signature verifies, which is not expired, whose payload schema-validates with
string username, hash and indices and numeric issuedAt, and whose hash and
indices equal the route parameters under exact string equality; making any
single condition false yields no grant. -/
theorem c1_capability_grant_iff (env : SignerEnv) (now : Int) (req : ContentRequest) :
    (authenticateContentRequest env now req).2 = true ↔
      ∃ b p, req.queryToken = QueryVal.qStr (Wire.blob b) ∧
        b.sig = computeSig env.secret b.payload b.expiresAt ∧
        now < b.expiresAt ∧
        contentTokenSafeParse b.payload = some p ∧
        req.hash = p.hash ∧ req.indices = p.indices := by
  constructor
  · intro h
    rcases authCR_cases env now req with ⟨hf, _⟩ | ⟨_, b, p, hq, hsig, hlt, hparse, hh, hi, _⟩
    · rw [h] at hf; cases hf
    · exact ⟨b, p, hq, hsig, hlt, hparse, hh, hi⟩
  · rintro ⟨b, p, hq, hsig, hlt, hparse, hh, hi⟩
    exact authCR_grant_complete env now req b p hq hsig hlt hparse hh hi

theorem c1_witness : (authenticateContentRequest envW 500 reqGrantW).2 = true := by
  exact (c1_capability_grant_iff envW 500 reqGrantW).mpr
    ⟨blobW, ⟨"bob", "abc", "0-1", 1000⟩, rfl, rfl, by decide, rfl, rfl, rfl⟩

/-- C2: a content-route request reaches business logic only when the
mandatory session verification of the (possibly synthesized) credential
succeeds and the session-check stage ran; failure of that verification yields
rejection with 401 unless the rate limiter already rejected with 429.
Protected routes behave the same without the capability stage. -/
theorem c2_mandatory_session_verification (env : SignerEnv) (now : Int)
    (st : Option RateState) (req : ContentRequest) (cookies : List (String × Wire)) :
    (∀ u, (handleContentRoute env now st req).1.1 = Outcome.ok u →
      Step.sessionChecked ∈ (handleContentRoute env now st req).1.2 ∧
      sessionAuthenticate env now (authenticateContentRequest env now req).1.cookies = some u) ∧
    (sessionAuthenticate env now (authenticateContentRequest env now req).1.cookies = none →
      (handleContentRoute env now st req).1.1 = Outcome.reject 401 ∨
      (handleContentRoute env now st req).1.1 = Outcome.reject 429) ∧
    (∀ u, (handleProtectedRoute env now cookies).1 = Outcome.ok u →
      Step.sessionChecked ∈ (handleProtectedRoute env now cookies).2 ∧
      sessionAuthenticate env now cookies = some u) ∧
    (sessionAuthenticate env now cookies = none →
      (handleProtectedRoute env now cookies).1 = Outcome.reject 401) := by
  refine ⟨?_, ?_, ?_, ?_⟩
  · intro u hu
    by_cases hrl : (rateLimitStep now st).2
    · cases hsa : sessionAuthenticate env now (authenticateContentRequest env now req).1.cookies with
      | none => simp [handleContentRoute, hrl, hsa] at hu
      | some v =>
        simp [handleContentRoute, hrl, hsa] at hu
        subst hu
        simp [handleContentRoute, hrl, hsa]
    · simp [handleContentRoute, hrl] at hu
  · intro hsa
    by_cases hrl : (rateLimitStep now st).2
    · left; simp [handleContentRoute, hrl, hsa]
    · right; simp [handleContentRoute, hrl]
  · intro u hu
    cases hsa : sessionAuthenticate env now cookies with
    | none => simp [handleProtectedRoute, hsa] at hu
    | some v =>
      simp [handleProtectedRoute, hsa] at hu
      subst hu
      simp [handleProtectedRoute, hsa]
  · intro hsa
    simp [handleProtectedRoute, hsa]

theorem c2_witness : (handleProtectedRoute envW 0 []).1 = Outcome.reject 401 := by
  exact (c2_mandatory_session_verification envW 0 none reqPlainW []).2.2.2 rfl

/-- C3: on a full capability-token match the synthesized session credential is
signed for the payload username with the original payload issuedAt, and its
expiry derives from that original issuance rather than from the current
time (getAuthToken takes no clock input at all). -/
theorem c3_synthesized_credential_uses_original_iat (env : SignerEnv) (now : Int)
    (req : ContentRequest)
    (h : (authenticateContentRequest env now req).2 = true) :
    ∃ b p, req.queryToken = QueryVal.qStr (Wire.blob b) ∧
      contentTokenSafeParse b.payload = some p ∧
      (authenticateContentRequest env now req).1.cookies =
        [("jwt", getAuthToken env p.username p.iat)] ∧
      wireUsername (getAuthToken env p.username p.iat) = some p.username ∧
      wireIat (getAuthToken env p.username p.iat) = some p.iat ∧
      wireExpiresAt (getAuthToken env p.username p.iat) = some (p.iat + env.ttl) := by
  rcases authCR_cases env now req with ⟨hf, _⟩ | ⟨_, b, p, hq, _, _, hparse, _, _, hcook⟩
  · rw [h] at hf; cases hf
  · refine ⟨b, p, hq, hparse, ?_, ?_, ?_, rfl⟩
    · rw [hcook]
    · simp [getAuthToken, wireUsername, lookupField]
    · simp [getAuthToken, wireIat, lookupField]

theorem c3_witness :
    (authenticateContentRequest envW 500 reqGrantW).1.cookies =
      [("jwt", getAuthToken envW "bob" 1000)] := by
  obtain ⟨b, p, hq, hparse, hcook, -, -, -⟩ :=
    c3_synthesized_credential_uses_original_iat envW 500 reqGrantW (by rfl)
  have hb : b = blobW := by
    simpa [reqGrantW] using hq.symm
  subst hb
  have hp : p = ⟨"bob", "abc", "0-1", 1000⟩ := by
    rw [show contentTokenSafeParse blobW.payload =
        some ⟨"bob", "abc", "0-1", 1000⟩ from rfl] at hparse
    exact (Option.some.injEq _ _ ▸ hparse).symm
  subst hp
  exact hcook

/-- C7: whatever the query token value is, the capability middleware is total,
never itself rejects, and on any failure leaves the request unchanged, so that
processing falls through to the normal session verification; when the rate
limiter admits the request, the content pipeline always runs all three stages
and its outcome is exactly the session-verification result. -/
theorem c7_token_failures_swallowed (env : SignerEnv) (now : Int)
    (st : Option RateState) (req : ContentRequest)
    (hallow : (rateLimitStep now st).2 = true) :
    ((authenticateContentRequest env now req).2 = false →
      (authenticateContentRequest env now req).1 = req) ∧
    (handleContentRoute env now st req).1.2 =
      [Step.rateLimited, Step.capabilityAttempted, Step.sessionChecked] ∧
    (handleContentRoute env now st req).1.1 =
      (match sessionAuthenticate env now (authenticateContentRequest env now req).1.cookies with
       | some u => Outcome.ok u
       | none => Outcome.reject 401) := by
  refine ⟨?_, ?_, ?_⟩
  · intro h
    rcases authCR_cases env now req with ⟨_, hid⟩ | ⟨ht, _⟩
    · exact hid
    · rw [h] at ht; cases ht
  · cases hsa : sessionAuthenticate env now (authenticateContentRequest env now req).1.cookies with
    | none => simp [handleContentRoute, hallow, hsa]
    | some v => simp [handleContentRoute, hallow, hsa]
  · cases hsa : sessionAuthenticate env now (authenticateContentRequest env now req).1.cookies with
    | none => simp [handleContentRoute, hallow, hsa]
    | some v => simp [handleContentRoute, hallow, hsa]

theorem c7_witness :
    (authenticateContentRequest envW 0 reqPlainW).1 = reqPlainW ∧
    (handleContentRoute envW 0 none reqPlainW).1.2 =
      [Step.rateLimited, Step.capabilityAttempted, Step.sessionChecked] := by
  have h := c7_token_failures_swallowed envW 0 none reqPlainW (by decide)
  exact ⟨h.1 rfl, h.2.1⟩

/-- C10: when the capability token fully matches, the middleware replaces the
entire cookies object with one holding only the synthesized jwt - any session
cookie sent alongside is discarded and the identity the mandatory session
check subsequently resolves is the token username; without a full match the
request, cookies included, is left unchanged. -/
theorem c10_cookie_object_replaced (env : SignerEnv) (now : Int) (req : ContentRequest) :
    ((authenticateContentRequest env now req).2 = true →
      ∃ b p, req.queryToken = QueryVal.qStr (Wire.blob b) ∧
        contentTokenSafeParse b.payload = some p ∧
        (authenticateContentRequest env now req).1.cookies =
          [("jwt", getAuthToken env p.username p.iat)] ∧
        (now < p.iat + env.ttl →
          sessionAuthenticate env now (authenticateContentRequest env now req).1.cookies =
            some p.username)) ∧
    ((authenticateContentRequest env now req).2 = false →
      (authenticateContentRequest env now req).1 = req) := by
  constructor
  · intro h
    rcases authCR_cases env now req with ⟨hf, _⟩ | ⟨_, b, p, hq, _, _, hparse, _, _, hcook⟩
    · rw [h] at hf; cases hf
    · refine ⟨b, p, hq, hparse, by rw [hcook], ?_⟩
      intro hlt
      rw [hcook]
      simp [sessionAuthenticate, lookupField, getAuthToken, verifyToken, hlt]
  · intro h
    rcases authCR_cases env now req with ⟨_, hid⟩ | ⟨ht, _⟩
    · exact hid
    · rw [h] at ht; cases ht

theorem c10_witness :
    sessionAuthenticate envW 500 (authenticateContentRequest envW 500 reqGrantW).1.cookies =
      some "bob" := by
  obtain ⟨b, p, hq, hparse, -, hsess⟩ :=
    (c10_cookie_object_replaced envW 500 reqGrantW).1 (by rfl)
  have hb : b = blobW := by
    simpa [reqGrantW] using hq.symm
  subst hb
  have hp : p = ⟨"bob", "abc", "0-1", 1000⟩ := by
    rw [show contentTokenSafeParse blobW.payload =
        some ⟨"bob", "abc", "0-1", 1000⟩ from rfl] at hparse
    exact (Option.some.injEq _ _ ▸ hparse).symm
  subst hp
  exact hsess (by decide)

/-- C9: sanitizePath is idempotent and yields an absolute path in a single
normalized separator convention (a leading forward slash and no backslashes)
with no dot or dot-dot segments. -/
theorem c9_sanitizePath_idempotent_normalized (p : String) :
    sanitizePath (sanitizePath p) = sanitizePath p ∧
    (sanitizePath p).data.head? = some '/' ∧
    '\\' ∉ (sanitizePath p).data ∧
    ∀ seg ∈ splitChars '/' (sanitizePath p).data, seg ≠ ['.'] ∧ seg ≠ ['.', '.'] := by
  exact ⟨congrArg String.mk (sanitizeChars_idem p.data), rfl,
    backslash_not_mem_sanitizeChars p.data, sanitize_split_no_dots p.data⟩

theorem c9_witness :
    sanitizePath (sanitizePath "a\\b/../c") = sanitizePath "a\\b/../c" := by
  exact (c9_sanitizePath_idempotent_normalized "a\\b/../c").1

/-- C5: a directory-list request whose path parameter is missing, not a
string, or empty answers 404 with a code-and-message body and performs no
filesystem access. -/
theorem c5_missing_path_404 (roots : List String) (fs : Fs) (ip : PathParam)
    (h : pathParamMissing ip = true) :
    (directoryListHandler roots fs ip).1 = ⟨404, errorBodyJson fileNotFoundError⟩ ∧
    isErrorShape (directoryListHandler roots fs ip).1.body = true ∧
    (directoryListHandler roots fs ip).2 = [] := by
  cases ip with
  | absent => exact ⟨rfl, rfl, rfl⟩
  | parr l => exact ⟨rfl, rfl, rfl⟩
  | pstr s =>
    have hs : s = "" := by simpa [pathParamMissing] using h
    subst hs
    exact ⟨rfl, rfl, rfl⟩

theorem c5_witness :
    (directoryListHandler [] fsW PathParam.absent).1 = ⟨404, errorBodyJson fileNotFoundError⟩ ∧
    (directoryListHandler [] fsW PathParam.absent).2 = [] := by
  have h := c5_missing_path_404 [] fsW PathParam.absent rfl
  exact ⟨h.1, h.2.2⟩

/-- C6: a directory-list request whose sanitized path lies outside every
allow-list root answers 403 with a code-and-message body and performs no
filesystem access. -/
theorem c6_disallowed_path_403 (roots : List String) (fs : Fs) (p : String)
    (hne : p ≠ "") (hout : isAllowedPath roots (sanitizePath p) = false) :
    (directoryListHandler roots fs (PathParam.pstr p)).1 =
      ⟨403, errorBodyJson accessDeniedError⟩ ∧
    isErrorShape (directoryListHandler roots fs (PathParam.pstr p)).1.body = true ∧
    (directoryListHandler roots fs (PathParam.pstr p)).2 = [] := by
  have h1 : directoryListHandler roots fs (PathParam.pstr p) =
      (⟨403, errorBodyJson accessDeniedError⟩, []) := by
    simp [directoryListHandler, hne, hout]
  rw [h1]
  exact ⟨rfl, rfl, rfl⟩

theorem c6_witness :
    (directoryListHandler ["/data/downloads"] fsW (PathParam.pstr "../../etc")).1 =
      ⟨403, errorBodyJson accessDeniedError⟩ := by
  exact (c6_disallowed_path_403 ["/data/downloads"] fsW "../../etc"
    (by decide) (by decide)).1

/-- C8 counterexample: the notifications route answers a service failure with
a 500 body that lacks the code field, so not every JSON error body of this
API layer has the code-and-message shape. -/
theorem c8_counterexample :
    (notificationsGetHandler (Except.error "boom")).status = 500 ∧
    isErrorShape (notificationsGetHandler (Except.error "boom")).body = false :=
  ⟨rfl, rfl⟩

/-- C8 amended: error bodies built from the fileUtil error values carry the
code-and-message shape, while the notifications 500 bodies carry only a
message field and the history 500 body forwards the raw service rejection
value unchanged. -/
theorem c8_error_body_shapes (e : ApiError) (m : String) (err : Json) :
    isErrorShape (errorBodyJson e) = true ∧
    (notificationsGetHandler (Except.error m)).status = 500 ∧
    (notificationsGetHandler (Except.error m)).body = Json.jobj [("message", Json.jstr m)] ∧
    (notificationsDeleteHandler (Except.error m)).status = 500 ∧
    (notificationsDeleteHandler (Except.error m)).body = Json.jobj [("message", Json.jstr m)] ∧
    (historyHandler (Except.error err)).status = 500 ∧
    (historyHandler (Except.error err)).body = err := by
  exact ⟨rfl, rfl, rfl, rfl, rfl, rfl, rfl⟩

theorem c8_witness : isErrorShape (errorBodyJson fileNotFoundError) = true := by
  exact (c8_error_body_shapes fileNotFoundError "boom" Json.jnull).1

/-! ## Rate limiter lemmas -/

theorem handleContentRoute_state (env : SignerEnv) (now : Int) (st : Option RateState)
    (req : ContentRequest) :
    (handleContentRoute env now st req).2 = (rateLimitStep now st).1 := by
  by_cases hallow : (rateLimitStep now st).2
  · cases hsa : sessionAuthenticate env now (authenticateContentRequest env now req).1.cookies with
    | none => simp [handleContentRoute, hallow, hsa]
    | some u => simp [handleContentRoute, hallow, hsa]
  · simp [handleContentRoute, hallow]

theorem rateLimitStep_in_window (t t0 : Int) (k : Nat) (ht : t < t0 + windowMs) :
    rateLimitStep t (some ⟨t0, k⟩) = (⟨t0, k + 1⟩, decide (k + 1 ≤ maxRequests)) := by
  simp [rateLimitStep, if_neg (not_le.mpr ht)]

theorem runSeq_window_invariant (env : SignerEnv) (t0 : Int) :
    ∀ (l : List (Int × ContentRequest)) (k : Nat),
      (∀ q ∈ l, q.1 < t0 + windowMs) →
      ∀ i, i < l.length →
        ∃ out steps, (runSeq env (some ⟨t0, k⟩) l)[i]? = some (out, steps) ∧
          (k + i + 1 ≤ maxRequests →
            Step.capabilityAttempted ∈ steps ∧ out ≠ Outcome.reject 429) ∧
          (maxRequests < k + i + 1 →
            out = Outcome.reject 429 ∧ steps = [Step.rateLimited]) := by
  intro l
  induction l with
  | nil => intro k _ i hi; simp at hi
  | cons q rest ih =>
    obtain ⟨t, req⟩ := q
    intro k hw i hi
    have ht : t < t0 + windowMs := hw (t, req) (List.mem_cons_self _ _)
    have hbase := rateLimitStep_in_window t t0 k ht
    cases i with
    | zero =>
      by_cases hcnt : k + 1 ≤ maxRequests
      · have hallow : (rateLimitStep t (some ⟨t0, k⟩)).2 = true := by
          rw [hbase]; simpa using hcnt
        cases hsa :
            sessionAuthenticate env t (authenticateContentRequest env t req).1.cookies with
        | some u =>
          refine ⟨Outcome.ok u,
            [Step.rateLimited, Step.capabilityAttempted, Step.sessionChecked], ?_, ?_, ?_⟩
          · have h1 : (handleContentRoute env t (some ⟨t0, k⟩) req).1 =
                (Outcome.ok u,
                  [Step.rateLimited, Step.capabilityAttempted, Step.sessionChecked]) := by
              simp [handleContentRoute, hallow, hsa]
            simp [runSeq, h1]
          · intro _; exact ⟨by decide, by simp⟩
          · intro hgt; omega
        | none =>
          refine ⟨Outcome.reject 401,
            [Step.rateLimited, Step.capabilityAttempted, Step.sessionChecked], ?_, ?_, ?_⟩
          · have h1 : (handleContentRoute env t (some ⟨t0, k⟩) req).1 =
                (Outcome.reject 401,
                  [Step.rateLimited, Step.capabilityAttempted, Step.sessionChecked]) := by
              simp [handleContentRoute, hallow, hsa]
            simp [runSeq, h1]
          · intro _; exact ⟨by decide, by decide⟩
          · intro hgt; omega
      · have hallow : (rateLimitStep t (some ⟨t0, k⟩)).2 = false := by
          rw [hbase]; simpa using hcnt
        refine ⟨Outcome.reject 429, [Step.rateLimited], ?_, ?_, ?_⟩
        · have h1 : (handleContentRoute env t (some ⟨t0, k⟩) req).1 =
              (Outcome.reject 429, [Step.rateLimited]) := by
            simp [handleContentRoute, hallow]
          simp [runSeq, h1]
        · intro hle; omega
        · intro _; exact ⟨rfl, rfl⟩
    | succ j =>
      have hj : j < rest.length := by simpa using Nat.lt_of_succ_lt_succ hi
      have hstate : (handleContentRoute env t (some ⟨t0, k⟩) req).2 = ⟨t0, k + 1⟩ := by
        rw [handleContentRoute_state env t (some ⟨t0, k⟩) req, hbase]
      obtain ⟨out, steps, hget, hA, hB⟩ :=
        ih (k + 1) (fun q hq => hw q (List.mem_cons_of_mem _ hq)) j hj
      refine ⟨out, steps, ?_, ?_, ?_⟩
      · simp only [runSeq, List.getElem?_cons_succ]
        rw [hstate]
        exact hget
      · intro hle; exact hA (by omega)
      · intro hgt; exact hB (by omega)

/-- C4: starting from a fresh counter, in a sequence of content-route requests
sharing one client key whose arrivals all fall inside the 5-minute window
opened by the first request, each of the first 100 requests proceeds past the
rate limiter to capability and credential evaluation, while the 101st is
rejected with 429 after the rate-limit stage alone, before any
capability-token or credential evaluation. -/
theorem c4_rate_limit_window (env : SignerEnv) (t0 : Int) (r0 : ContentRequest)
    (rest : List (Int × ContentRequest))
    (hlen : rest.length = 100)
    (hw : ∀ q ∈ rest, q.1 < t0 + windowMs) :
    (∀ i, i < 100 →
      ∃ out steps, (runSeq env none ((t0, r0) :: rest))[i]? = some (out, steps) ∧
        Step.capabilityAttempted ∈ steps ∧ out ≠ Outcome.reject 429) ∧
    (runSeq env none ((t0, r0) :: rest))[100]? =
      some (Outcome.reject 429, [Step.rateLimited]) := by
  have hbase0 : rateLimitStep t0 none = (⟨t0, 1⟩, true) := rfl
  have hallow0 : (rateLimitStep t0 none).2 = true := by rw [hbase0]
  have hst0 : (handleContentRoute env t0 none r0).2 = ⟨t0, 1⟩ := by
    rw [handleContentRoute_state env t0 none r0, hbase0]
  constructor
  · intro i hi
    cases i with
    | zero =>
      cases hsa :
          sessionAuthenticate env t0 (authenticateContentRequest env t0 r0).1.cookies with
      | some u =>
        refine ⟨Outcome.ok u,
          [Step.rateLimited, Step.capabilityAttempted, Step.sessionChecked],
          ?_, by decide, by simp⟩
        have h1 : (handleContentRoute env t0 none r0).1 =
            (Outcome.ok u,
              [Step.rateLimited, Step.capabilityAttempted, Step.sessionChecked]) := by
          simp [handleContentRoute, hallow0, hsa]
        simp [runSeq, h1]
      | none =>
        refine ⟨Outcome.reject 401,
          [Step.rateLimited, Step.capabilityAttempted, Step.sessionChecked],
          ?_, by decide, by decide⟩
        have h1 : (handleContentRoute env t0 none r0).1 =
            (Outcome.reject 401,
              [Step.rateLimited, Step.capabilityAttempted, Step.sessionChecked]) := by
          simp [handleContentRoute, hallow0, hsa]
        simp [runSeq, h1]
    | succ j =>
      have hj : j < rest.length := by omega
      obtain ⟨out, steps, hget, hA, -⟩ := runSeq_window_invariant env t0 rest 1 hw j hj
      have hA₁ := hA (by simp [maxRequests]; omega)
      refine ⟨out, steps, ?_, hA₁.1, hA₁.2⟩
      simp only [runSeq, List.getElem?_cons_succ]
      rw [hst0]
      exact hget
  · have h99 : (99 : Nat) < rest.length := by omega
    obtain ⟨out, steps, hget, -, hB⟩ := runSeq_window_invariant env t0 rest 1 hw 99 h99
    obtain ⟨ho, hs⟩ := hB (by simp [maxRequests])
    subst ho
    subst hs
    show (runSeq env none ((t0, r0) :: rest))[(99 : Nat) + 1]? =
      some (Outcome.reject 429, [Step.rateLimited])
    simp only [runSeq, List.getElem?_cons_succ]
    rw [hst0]
    exact hget

theorem c4_witness :
    (runSeq envW none (((0 : Int), reqPlainW) :: seqW))[100]? =
      some (Outcome.reject 429, [Step.rateLimited]) := by
  refine (c4_rate_limit_window envW 0 reqPlainW seqW (by simp [seqW]) ?_).2
  intro q hq
  have hq₁ : q = ((0 : Int), reqPlainW) := by
    simpa [seqW] using (List.eq_of_mem_replicate hq)
  subst hq₁
  decide

end Flood
